import Mathlib

/-!
Verification development for the stress-signal evaluation script
(`notebooks/evaluate.py`).  The script has two logical pieces:

* `create_segments`: partitions a time-indexed signal into contiguous runs
  coloured "red" (in-stress) or "blue" (not-in-stress) according to a list of
  half-open stress intervals;
* `plot_physiological_signals` / `evaluate`: the evaluation driver, which
  validates the feature mapping, reshapes the four channels, calls the model,
  binarizes the probabilities, derives stress intervals from labels, renders a
  figure and logs results inside an experiment-tracking session.

The embedding below follows the Python source line by line.  Machine floats
are modelled as rationals, NumPy arrays as lists, the pickled feature mapping
as an association list, the model as an opaque function parameter, and the
side-effecting calls of the driver as an explicit event trace.
-/

/-- The two colours used by `create_segments` ("blue" = not in stress,
"red" = in stress). -/
inductive Color where
  | blue : Color
  | red : Color
deriving DecidableEq

/-- A segment as built by `create_segments`: the dictionary
`{"x": [...], "y": [...], "color": ...}`. -/
structure Segment (α : Type) where
  x : List Int
  y : List α
  color : Color
deriving DecidableEq

/-- `any(start <= t < end for start, end in stress_periods)`. -/
def inStress (stress_periods : List (Int × Int)) (t : Int) : Bool :=
  stress_periods.any (fun p => decide (p.1 ≤ t) && decide (t < p.2))

/-- `color = "red" if in_stress else "blue"`. -/
def sampleColor (stress_periods : List (Int × Int)) (t : Int) : Color :=
  if inStress stress_periods t then Color.red else Color.blue

/-- The `for t, v in zip(time_indices, values)` loop of `create_segments`,
with the trailing `if current_segment["x"]: segments.append(...)`.
`segments` is the accumulator, `cur` the current segment. -/
def segLoop (stress_periods : List (Int × Int)) :
    List (Int × α) → List (Segment α) → Segment α → List (Segment α)
  | [], segments, cur =>
      if cur.x = [] then segments else segments ++ [cur]
  | (t, v) :: rest, segments, cur =>
      if sampleColor stress_periods t ≠ cur.color ∧ cur.x ≠ [] then
        segLoop stress_periods rest (segments ++ [cur])
          { x := [t], y := [v], color := sampleColor stress_periods t }
      else
        segLoop stress_periods rest segments
          { x := cur.x ++ [t], y := cur.y ++ [v],
            color := sampleColor stress_periods t }

/-- `create_segments(time_indices, values, stress_periods)`. -/
def create_segments (time_indices : List Int) (values : List α)
    (stress_periods : List (Int × Int)) : List (Segment α) :=
  segLoop stress_periods (time_indices.zip values) []
    { x := [], y := [], color := Color.blue }

/-- Concatenation, in order, of the (time, value) samples of all segments. -/
def segSamples (segs : List (Segment α)) : List (Int × α) :=
  segs.flatMap (fun s => s.x.zip s.y)

lemma segLoop_flatMap_x (sp : List (Int × Int)) :
    ∀ (l : List (Int × α)) (segs : List (Segment α)) (cur : Segment α),
      (segLoop sp l segs cur).flatMap Segment.x =
        segs.flatMap Segment.x ++ cur.x ++ l.map Prod.fst := by
  intro l
  induction l with
  | nil =>
      intro segs cur
      by_cases hx : cur.x = [] <;> simp [segLoop, hx]
  | cons p rest ih =>
      obtain ⟨t, v⟩ := p
      intro segs cur
      by_cases hbr : sampleColor sp t ≠ cur.color ∧ cur.x ≠ []
      · rw [segLoop, if_pos hbr, ih]
        simp
      · rw [segLoop, if_neg hbr, ih]
        simp

lemma segLoop_flatMap_y (sp : List (Int × Int)) :
    ∀ (l : List (Int × α)) (segs : List (Segment α)) (cur : Segment α),
      cur.x.length = cur.y.length →
      (segLoop sp l segs cur).flatMap Segment.y =
        segs.flatMap Segment.y ++ cur.y ++ l.map Prod.snd := by
  intro l
  induction l with
  | nil =>
      intro segs cur h
      by_cases hx : cur.x = []
      · have hy : cur.y = [] := List.length_eq_zero.mp (by rw [← h, hx]; rfl)
        simp [segLoop, hx, hy]
      · simp [segLoop, hx]
  | cons p rest ih =>
      obtain ⟨t, v⟩ := p
      intro segs cur h
      by_cases hbr : sampleColor sp t ≠ cur.color ∧ cur.x ≠ []
      · rw [segLoop, if_pos hbr, ih _ _ (by simp)]
        simp
      · rw [segLoop, if_neg hbr, ih _ _ (by simp [h])]
        simp

lemma segLoop_samples (sp : List (Int × Int)) :
    ∀ (l : List (Int × α)) (segs : List (Segment α)) (cur : Segment α),
      cur.x.length = cur.y.length →
      segSamples (segLoop sp l segs cur) = segSamples segs ++ cur.x.zip cur.y ++ l := by
  intro l
  induction l with
  | nil =>
      intro segs cur h
      by_cases hx : cur.x = [] <;> simp [segLoop, hx, segSamples]
  | cons p rest ih =>
      obtain ⟨t, v⟩ := p
      intro segs cur h
      by_cases hbr : sampleColor sp t ≠ cur.color ∧ cur.x ≠ []
      · rw [segLoop, if_pos hbr, ih _ _ (by simp)]
        simp [segSamples]
      · rw [segLoop, if_neg hbr, ih _ _ (by simp [h]), List.zip_append h]
        simp

/-- C1: every sample of the input appears in exactly one segment, segments
come in time order, and concatenating all segments' samples (their times,
their values, and their (time, value) pairs) reproduces the aligned input
sequences exactly. -/
theorem create_segments_partition (α : Type) (times : List Int) (values : List α)
    (sp : List (Int × Int)) (h : times.length = values.length) :
    (create_segments times values sp).flatMap Segment.x = times ∧
    (create_segments times values sp).flatMap Segment.y = values ∧
    segSamples (create_segments times values sp) = times.zip values := by
  refine ⟨?_, ?_, ?_⟩
  · rw [create_segments, segLoop_flatMap_x]
    simp [List.map_fst_zip _ _ (le_of_eq h)]
  · rw [create_segments, segLoop_flatMap_y _ _ _ _ rfl]
    simp [List.map_snd_zip _ _ (le_of_eq h.symm)]
  · rw [create_segments, segLoop_samples _ _ _ _ rfl]
    simp [segSamples]

/-- Witness for C1: the partition property at a concrete input. -/
theorem create_segments_partition_witness :
    (create_segments [0, 1] [(1 : ℚ), 2] [(0, 1)]).flatMap Segment.x = [0, 1] ∧
    (create_segments [0, 1] [(1 : ℚ), 2] [(0, 1)]).flatMap Segment.y = [1, 2] ∧
    segSamples (create_segments [0, 1] [(1 : ℚ), 2] [(0, 1)]) =
      List.zip [0, 1] [(1 : ℚ), 2] :=
  create_segments_partition ℚ [0, 1] [1, 2] [(0, 1)] rfl

/-- C10: the segment builder returns no segments on empty input, and exactly
one segment containing the sample on a one-sample input, for every interval
collection. -/
theorem create_segments_edge_cases (α : Type) (t : Int) (v : α)
    (sp : List (Int × Int)) :
    create_segments ([] : List Int) ([] : List α) sp = [] ∧
    create_segments [t] [v] sp =
      [{ x := [t], y := [v], color := sampleColor sp t }] := by
  constructor
  · rfl
  · simp [create_segments, segLoop]

/-- A produced segment is nonempty and all its samples carry the segment's
classification. -/
def segOk (sp : List (Int × Int)) (s : Segment α) : Prop :=
  s.x ≠ [] ∧ ∀ t ∈ s.x, sampleColor sp t = s.color

lemma chain_imp_of_mem {β : Type} {R S : β → β → Prop} {P : β → Prop} :
    ∀ {l : List β}, (∀ a ∈ l, P a) → List.Chain' R l →
      (∀ a b, P a → P b → R a b → S a b) → List.Chain' S l
  | [], _, _, _ => List.chain'_nil
  | [_], _, _, _ => List.chain'_singleton _
  | a :: b :: l, hP, hC, hRS => by
      rw [List.chain'_cons] at hC ⊢
      refine ⟨hRS a b (hP a (by simp)) (hP b (by simp)) hC.1, ?_⟩
      exact chain_imp_of_mem (fun c hc => hP c (by simp [hc])) hC.2 hRS

lemma segLoop_classification (sp : List (Int × Int)) :
    ∀ (l : List (Int × α)) (segs : List (Segment α)) (cur : Segment α),
      (∀ s ∈ segs, segOk sp s) →
      (∀ t ∈ cur.x, sampleColor sp t = cur.color) →
      (cur.x = [] → segs = []) →
      List.Chain' (fun a b => a.color ≠ b.color)
        (if cur.x = [] then segs else segs ++ [cur]) →
      (∀ s ∈ segLoop sp l segs cur, segOk sp s) ∧
        List.Chain' (fun a b => a.color ≠ b.color) (segLoop sp l segs cur) := by
  intro l
  induction l with
  | nil =>
      intro segs cur hsegs hcur hemp hchain
      by_cases hx : cur.x = []
      · rw [segLoop, if_pos hx]
        rw [if_pos hx] at hchain
        exact ⟨hsegs, hchain⟩
      · rw [segLoop, if_neg hx]
        rw [if_neg hx] at hchain
        refine ⟨?_, hchain⟩
        intro s hs
        rcases List.mem_append.mp hs with h | h
        · exact hsegs s h
        · rcases List.mem_singleton.mp h with rfl
          exact ⟨hx, hcur⟩
  | cons p rest ih =>
      obtain ⟨t, v⟩ := p
      intro segs cur hsegs hcur hemp hchain
      by_cases hbr : sampleColor sp t ≠ cur.color ∧ cur.x ≠ []
      · rw [segLoop, if_pos hbr]
        rw [if_neg hbr.2] at hchain
        apply ih
        · intro s hs
          rcases List.mem_append.mp hs with h | h
          · exact hsegs s h
          · rcases List.mem_singleton.mp h with rfl
            exact ⟨hbr.2, hcur⟩
        · intro t' ht'
          rcases List.mem_singleton.mp ht' with rfl
          rfl
        · intro h
          exact absurd h (by simp)
        · rw [if_neg (by simp)]
          rw [List.chain'_append]
          refine ⟨hchain, List.chain'_singleton _, ?_⟩
          intro a ha b hb
          rw [List.getLast?_concat] at ha
          rcases Option.mem_some_iff.mp ha with rfl
          rcases Option.mem_some_iff.mp hb with rfl
          exact fun hc => hbr.1 hc.symm
      · rw [segLoop, if_neg hbr]
        apply ih
        · exact hsegs
        · intro t' ht'
          rcases List.mem_append.mp ht' with h | h
          · rw [hcur t' h]
            by_cases hx : cur.x = []
            · exact absurd (hx ▸ h) (List.not_mem_nil t')
            · rcases not_and_or.mp hbr with hc | hc
              · exact (not_not.mp hc).symm
              · exact absurd (not_not.mp hc) hx
          · rcases List.mem_singleton.mp h with rfl
            rfl
        · intro h
          exact absurd h (by simp)
        · rw [if_neg (by simp)]
          by_cases hx : cur.x = []
          · rw [hemp hx]
            simp
          · have hc : sampleColor sp t = cur.color := by
              rcases not_and_or.mp hbr with hc | hc
              · exact not_not.mp hc
              · exact absurd hx hc
            rw [if_neg hx, List.chain'_append] at hchain
            rw [List.chain'_append]
            refine ⟨hchain.1, List.chain'_singleton _, ?_⟩
            intro a ha b hb
            rcases Option.mem_some_iff.mp hb with rfl
            have := hchain.2.2 a ha cur (by simp)
            simpa [hc] using this

/-- C2: within one returned segment every sample has the same stress
classification (equal to the segment's colour), every returned segment is
nonempty, consecutive segments have different colours, and therefore the
classification of the last sample of a segment differs from that of the first
sample of the next segment (the boundary sample having started the new
segment). -/
theorem create_segments_classification (α : Type) (times : List Int)
    (values : List α) (sp : List (Int × Int)) :
    (∀ s ∈ create_segments times values sp, segOk sp s) ∧
    List.Chain' (fun a b => a.color ≠ b.color) (create_segments times values sp) ∧
    List.Chain'
      (fun a b => ∀ ta ∈ a.x.getLast?, ∀ tb ∈ b.x.head?,
        sampleColor sp ta ≠ sampleColor sp tb)
      (create_segments times values sp) := by
  have h := segLoop_classification sp (times.zip values) []
    { x := [], y := [], color := Color.blue }
    (by intro s hs; exact absurd hs (List.not_mem_nil s))
    (by intro t ht; exact absurd ht (List.not_mem_nil t))
    (fun _ => rfl)
    (by rw [if_pos rfl]; exact List.chain'_nil)
  refine ⟨h.1, h.2, ?_⟩
  refine chain_imp_of_mem h.1 h.2 ?_
  intro a b ha hb hab ta hta tb htb
  have hta' : ta ∈ a.x := List.mem_of_mem_getLast? hta
  have htb' : tb ∈ b.x := List.mem_of_mem_head? htb
  rw [ha.2 ta hta', hb.2 tb htb']
  exact hab

/-- Witness for C2 at a concrete input: one stress interval splitting two
samples into two segments. -/
theorem create_segments_classification_witness :
    (∀ s ∈ create_segments [0, 1] [(5 : ℚ), 6] [(1, 2)], segOk [(1, 2)] s) ∧
    List.Chain' (fun a b => a.color ≠ b.color)
      (create_segments [0, 1] [(5 : ℚ), 6] [(1, 2)]) ∧
    List.Chain'
      (fun a b => ∀ ta ∈ a.x.getLast?, ∀ tb ∈ b.x.head?,
        sampleColor [(1, 2)] ta ≠ sampleColor [(1, 2)] tb)
      (create_segments [0, 1] [(5 : ℚ), 6] [(1, 2)]) :=
  create_segments_classification ℚ [0, 1] [5, 6] [(1, 2)]

/-- The interval `(i * 8, (i + 1) * 8)` attached to evaluation window `i`. -/
def stressInterval (i : Nat) : Nat × Nat :=
  (i * 8, (i + 1) * 8)

/-- `[(i * 8, (i + 1) * 8) for i, label in enumerate(labels) if label == 1]`. -/
def derive_stress_periods (labels : List Nat) : List (Nat × Nat) :=
  (labels.enum.filter (fun p => p.2 == 1)).map (fun p => stressInterval p.1)

/-- `(y_pred_probs > 0.5).astype(int)` on the flattened probability list. -/
def binarize (probs : List ℚ) : List Nat :=
  probs.map (fun p => if p > 1 / 2 then 1 else 0)

/-- Per-window lengths of the `data_dict` reshape step. -/
def edaWindowLen : Nat := 32

def tempWindowLen : Nat := 32

def bvpWindowLen : Nat := 256

def accWindowLen : Nat := 256

/-- Split a flat array into consecutive windows of length `w`; the fuel
argument (instantiated with the list length) makes the recursion structural. -/
def chunksAux (w : Nat) : Nat → List α → List (List α)
  | 0, _ => []
  | _ + 1, [] => []
  | fuel + 1, x :: rest => ((x :: rest).take w) :: chunksAux w fuel ((x :: rest).drop w)

/-- The windows of `np.array(xs).reshape(-1, w, 1)` when the reshape succeeds. -/
def chunkList (w : Nat) (xs : List α) : List (List α) :=
  chunksAux w xs.length xs

/-- `np.array(xs).reshape(-1, w, 1)`: fails unless `w` divides the array
length, otherwise yields the list of windows. -/
def reshapeArray (w : Nat) (xs : List ℚ) : Except String (List (List ℚ)) :=
  if w ∣ xs.length then Except.ok (chunkList w xs)
  else Except.error ("cannot reshape array of size " ++ toString xs.length ++
    " into shape (" ++ toString w ++ ",1)")

/-- Observable actions of the evaluation driver, in program order. -/
inductive Event where
  | liveOpen : Event
  | reshapeChannel (channel : String) (windowLen : Nat) : Event
  | predictCall (args : List (String × List (List ℚ))) : Event
  | logConfusionMatrix (y_test : List Nat) (y_pred : List Nat) (name : String) : Event
  | writeImage (path : String) : Event
  | logImage (name : String) (path : String) : Event
  | liveClose : Event
deriving DecidableEq

/-- The rendered Plotly figure: its scatter traces, the green rectangles for
true stress periods, the red rectangles for predicted ones, and the title. -/
structure Fig where
  traces : List (List Nat × List ℚ)
  greenShapes : List (Nat × Nat)
  redShapes : List (Nat × Nat)
  title : String
deriving DecidableEq

/-- `required_keys = ['EDA', 'TEMP', 'BVP', 'ACC']`. -/
def requiredKeys : List String := ["EDA", "TEMP", "BVP", "ACC"]

/-- `f"Missing required key '{key}' in x_test pickle file."` -/
def missingKeyMsg (key : String) : String :=
  "Missing required key '" ++ key ++ "' in x_test pickle file."

/-- The `for key in required_keys: if key not in x_test: raise` loop: the
first required key absent from the feature mapping, if any. -/
def findMissingKey (x_test : List (String × List ℚ)) : Option String :=
  requiredKeys.find? (fun k => (x_test.lookup k).isNone)

/-- Sequence two traced fallible computations: on error the pending events
are kept and the error propagates. -/
def step (m : List Event × Except String A)
    (f : A → List Event × Except String B) : List Event × Except String B :=
  match m with
  | (evs, Except.error e) => (evs, Except.error e)
  | (evs, Except.ok a) => (evs ++ (f a).1, (f a).2)

/-- One entry of the `data_dict` reshape, recording the channel it reshaped. -/
def reshapeStep (channel : String) (w : Nat) (xs : List ℚ) :
    List Event × Except String (List (List ℚ)) :=
  match reshapeArray w xs with
  | Except.ok t => ([Event.reshapeChannel channel w], Except.ok t)
  | Except.error e => ([], Except.error e)

/-- The output image path. -/
def plotPath : String := "images/evaluation/plots/physiological_signals_plot.png"

/-- The body of `plot_physiological_signals` inside the `with Live()` block,
after the two pickle loads (whose results are the `x_test`/`y_test` inputs):
key validation, the `data_dict` reshape in dictionary order EDA, TEMP, BVP,
ACC, the `model.predict` call in argument order EDA, BVP, TEMP, ACC,
binarization, the confusion-matrix log, the figure (one EDA line trace plus
background rectangles from true and predicted stress periods), the image
write and the image log. -/
def plotBody (x_test : List (String × List ℚ)) (y_test : List Nat)
    (predict : List (List (List ℚ)) → List ℚ) (subject_id : String) :
    List Event × Except String Fig :=
  match findMissingKey x_test with
  | some key => ([], Except.error (missingKeyMsg key))
  | none =>
      step (reshapeStep "EDA" edaWindowLen ((x_test.lookup "EDA").getD [])) fun edaT =>
      step (reshapeStep "TEMP" tempWindowLen ((x_test.lookup "TEMP").getD [])) fun tempT =>
      step (reshapeStep "BVP" bvpWindowLen ((x_test.lookup "BVP").getD [])) fun bvpT =>
      step (reshapeStep "ACC" accWindowLen ((x_test.lookup "ACC").getD [])) fun accT =>
      ([Event.predictCall [("EDA", edaT), ("BVP", bvpT), ("TEMP", tempT), ("ACC", accT)],
        Event.logConfusionMatrix y_test
          (binarize (predict [edaT, bvpT, tempT, accT]))
          ("confusion_matrix subject: " ++ subject_id),
        Event.writeImage plotPath,
        Event.logImage "physiological_signals" plotPath],
       Except.ok
         { traces := [(List.range ((x_test.lookup "EDA").getD []).length,
             (x_test.lookup "EDA").getD [])],
           greenShapes := derive_stress_periods y_test,
           redShapes := derive_stress_periods
             (binarize (predict [edaT, bvpT, tempT, accT])),
           title := "Physiological Signals with Stress Periods of subject " ++
             subject_id })

/-- `plot_physiological_signals`, parameterised over the segment builder that
is in scope in the module (the source defines `create_segments` but the driver
never calls it).  The `with Live() as live:` block opens the tracking session
first and closes it on every exit path, around the body's events. -/
def plot_physiological_signals_with
    (segBuilder : List Int → List ℚ → List (Int × Int) → List (Segment ℚ))
    (x_test : List (String × List ℚ)) (y_test : List Nat)
    (predict : List (List (List ℚ)) → List ℚ) (subject_id : String) :
    List Event × Except String Fig :=
  (Event.liveOpen :: (plotBody x_test y_test predict subject_id).1 ++
      [Event.liveClose],
   (plotBody x_test y_test predict subject_id).2)

/-- `plot_physiological_signals` itself, with the module's `create_segments`
in scope. -/
def plot_physiological_signals :
    List (String × List ℚ) → List Nat →
      (List (List (List ℚ)) → List ℚ) → String →
      List Event × Except String Fig :=
  plot_physiological_signals_with create_segments

/-- `evaluate()`: loads the model (the `predict` input) and the two fixtures
(the `x_test`/`y_test` inputs) and runs the driver for subject S16. -/
def evaluate (x_test : List (String × List ℚ)) (y_test : List Nat)
    (predict : List (List (List ℚ)) → List ℚ) :
    List Event × Except String Fig :=
  plot_physiological_signals x_test y_test predict "S16"

lemma mem_enumFrom_iff {α : Type} :
    ∀ (l : List α) (n : Nat) (p : Nat × α),
      p ∈ List.enumFrom n l ↔ ∃ i, l.get? i = some p.2 ∧ p.1 = n + i := by
  intro l
  induction l with
  | nil => intro n p; simp [List.enumFrom]
  | cons a l ih =>
      intro n p
      rw [List.enumFrom, List.mem_cons, ih]
      constructor
      · rintro (rfl | ⟨i, hi, hfst⟩)
        · exact ⟨0, rfl, rfl⟩
        · exact ⟨i + 1, by simpa using hi, by omega⟩
      · rintro ⟨i, hi, hfst⟩
        cases i with
        | zero =>
            left
            simp only [List.get?] at hi
            obtain ⟨p1, p2⟩ := p
            simp at hi hfst ⊢
            exact ⟨hfst, hi.symm⟩
        | succ i =>
            right
            exact ⟨i, by simpa using hi, by omega⟩

lemma enumFrom_fst_bound {α : Type} :
    ∀ (l : List α) (m n : Nat), n < m → ∀ p ∈ List.enumFrom m l, n < p.1 := by
  intro l
  induction l with
  | nil => intro m n _ p hp; exact absurd hp (List.not_mem_nil p)
  | cons a l ih =>
      intro m n hnm p hp
      rcases List.mem_cons.mp hp with rfl | hp
      · exact hnm
      · exact ih (m + 1) n (by omega) p hp

lemma enumFrom_fst_pairwise {α : Type} :
    ∀ (l : List α) (n : Nat),
      List.Pairwise (fun p q : Nat × α => p.1 < q.1) (List.enumFrom n l) := by
  intro l
  induction l with
  | nil => intro n; simp [List.enumFrom]
  | cons a l ih =>
      intro n
      rw [List.enumFrom]
      exact List.Pairwise.cons
        (fun q hq => enumFrom_fst_bound l (n + 1) n (by omega) q hq) (ih (n + 1))

/-- C3: the derived stress intervals are exactly `(i * 8, (i + 1) * 8)` for
the indices `i` whose label is 1, listed in increasing order of `i`; in
particular `[0, 1, 0, 1]` yields `[(8, 16), (24, 32)]`. -/
theorem derive_stress_periods_spec (labels : List Nat) :
    (∀ q : Nat × Nat, q ∈ derive_stress_periods labels ↔
      ∃ i, labels.get? i = some 1 ∧ q = stressInterval i) ∧
    List.Pairwise (fun a b : Nat × Nat => a.1 < b.1)
      (derive_stress_periods labels) ∧
    derive_stress_periods [0, 1, 0, 1] = [(8, 16), (24, 32)] := by
  refine ⟨?_, ?_, rfl⟩
  · intro q
    rw [derive_stress_periods]
    simp only [List.mem_map, List.mem_filter, List.enum]
    constructor
    · rintro ⟨p, ⟨hp, hlab⟩, rfl⟩
      rcases (mem_enumFrom_iff labels 0 p).mp hp with ⟨i, hi, hfst⟩
      refine ⟨i, ?_, by rw [hfst]; simp⟩
      have hp2 : p.2 = 1 := by simpa using hlab
      rw [← hp2]
      exact hi
    · rintro ⟨i, hi, rfl⟩
      refine ⟨(i, 1), ⟨(mem_enumFrom_iff labels 0 (i, 1)).mpr ⟨i, hi, by omega⟩, rfl⟩, rfl⟩
  · rw [derive_stress_periods]
    rw [List.pairwise_map]
    refine List.Pairwise.imp ?_ ((enumFrom_fst_pairwise labels 0).filter _)
    intro a b hab
    simp only [stressInterval]
    omega

/-- C5: binarization maps a probability to 1 exactly when it is strictly
greater than 1/2 and to 0 otherwise (in particular 1/2 maps to 0), preserves
length, and `[0.4, 0.5, 0.6]` binarizes to `[0, 0, 1]`. -/
theorem binarize_strict_threshold :
    (∀ (probs : List ℚ) (i : Nat),
      (binarize probs).getD i 0 = if 1 / 2 < probs.getD i 0 then 1 else 0) ∧
    (∀ probs : List ℚ, (binarize probs).length = probs.length) ∧
    binarize [2 / 5, 1 / 2, 3 / 5] = [0, 0, 1] := by
  refine ⟨?_, ?_, ?_⟩
  · intro probs
    induction probs with
    | nil => intro i; norm_num [binarize]
    | cons p rest ih =>
        intro i
        cases i with
        | zero => simp [binarize]
        | succ i => simpa [binarize] using ih i
  · intro probs
    simp [binarize]
  · norm_num [binarize]

/-- C4: a feature mapping lacking one of the four required channel keys makes
the driver raise the data-validation error naming a missing key, with no
reshape and no inference recorded: the whole trace is just the session
open/close pair around the immediately-raised error. -/
theorem missing_key_aborts (x_test : List (String × List ℚ)) (y_test : List Nat)
    (predict : List (List (List ℚ)) → List ℚ) (subject_id : String)
    (h : ∃ k ∈ requiredKeys, x_test.lookup k = none) :
    ∃ key, key ∈ requiredKeys ∧ x_test.lookup key = none ∧
      plot_physiological_signals x_test y_test predict subject_id =
        ([Event.liveOpen, Event.liveClose], Except.error (missingKeyMsg key)) := by
  obtain ⟨k, hk, hnone⟩ := h
  have hsome : (findMissingKey x_test).isSome := by
    rw [findMissingKey, List.find?_isSome]
    exact ⟨k, hk, by simp [hnone]⟩
  obtain ⟨key, hkey⟩ := Option.isSome_iff_exists.mp hsome
  rw [findMissingKey] at hkey
  refine ⟨key, List.mem_of_find?_eq_some hkey, ?_, ?_⟩
  · have := List.find?_some hkey
    simpa using this
  · have hfind : findMissingKey x_test = some key := hkey
    simp [plot_physiological_signals, plot_physiological_signals_with,
      plotBody, hfind]

/-- Witness for C4: a mapping with `ACC` absent aborts with the `ACC`
message and an open/close-only trace. -/
theorem missing_key_aborts_witness :
    ∃ key, key ∈ requiredKeys ∧
      List.lookup key [("EDA", ([] : List ℚ)), ("TEMP", []), ("BVP", [])] = none ∧
      plot_physiological_signals [("EDA", ([] : List ℚ)), ("TEMP", []), ("BVP", [])]
          [] (fun _ => []) "S16" =
        ([Event.liveOpen, Event.liveClose], Except.error (missingKeyMsg key)) :=
  missing_key_aborts [("EDA", []), ("TEMP", []), ("BVP", [])] [] (fun _ => []) "S16"
    ⟨"ACC", by decide, by decide⟩

lemma step_forall {A B : Type} (P : Event → Prop)
    (m : List Event × Except String A) (f : A → List Event × Except String B)
    (hm : ∀ e ∈ m.1, P e) (hf : ∀ a, ∀ e ∈ (f a).1, P e) :
    ∀ e ∈ (step m f).1, P e := by
  obtain ⟨evs, r⟩ := m
  cases r with
  | error err => exact hm
  | ok a =>
      intro e he
      rcases List.mem_append.mp he with h | h
      · exact hm e h
      · exact hf a e h

lemma reshapeStep_no_session_events (channel : String) (w : Nat) (xs : List ℚ) :
    ∀ e ∈ (reshapeStep channel w xs).1,
      e ≠ Event.liveOpen ∧ e ≠ Event.liveClose := by
  rw [reshapeStep]
  cases reshapeArray w xs with
  | ok t => intro e he; rcases List.mem_singleton.mp he with rfl; exact ⟨by simp, by simp⟩
  | error err => intro e he; exact absurd he (List.not_mem_nil e)

lemma plotBody_no_session_events (x_test : List (String × List ℚ))
    (y_test : List Nat) (predict : List (List (List ℚ)) → List ℚ)
    (subject_id : String) :
    ∀ e ∈ (plotBody x_test y_test predict subject_id).1,
      e ≠ Event.liveOpen ∧ e ≠ Event.liveClose := by
  rw [plotBody]
  cases findMissingKey x_test with
  | some key => intro e he; exact absurd he (List.not_mem_nil e)
  | none =>
      refine step_forall _ _ _ (reshapeStep_no_session_events _ _ _) ?_
      intro edaT
      refine step_forall _ _ _ (reshapeStep_no_session_events _ _ _) ?_
      intro tempT
      refine step_forall _ _ _ (reshapeStep_no_session_events _ _ _) ?_
      intro bvpT
      refine step_forall _ _ _ (reshapeStep_no_session_events _ _ _) ?_
      intro accT
      intro e he
      simp only [List.mem_cons, List.not_mem_nil, or_false] at he
      rcases he with rfl | rfl | rfl | rfl <;> exact ⟨by simp, by simp⟩

/-- C9: on every execution path the tracking session opens first and closes
last — the trace is exactly the session-open event, then the body's events
(none of which is an open or close, so every log call happens while the
session is open), then the session-close event, whether the body succeeded
or raised. -/
theorem session_scoped (x_test : List (String × List ℚ)) (y_test : List Nat)
    (predict : List (List (List ℚ)) → List ℚ) (subject_id : String) :
    ∃ evs,
      (plot_physiological_signals x_test y_test predict subject_id).1 =
        Event.liveOpen :: evs ++ [Event.liveClose] ∧
      (∀ e ∈ evs, e ≠ Event.liveOpen ∧ e ≠ Event.liveClose) := by
  exact ⟨(plotBody x_test y_test predict subject_id).1, rfl,
    plotBody_no_session_events x_test y_test predict subject_id⟩

lemma chunksAux_mem_length {α : Type} (w : Nat) (hw : w ≠ 0) :
    ∀ (fuel : Nat) (xs : List α), xs.length ≤ fuel → w ∣ xs.length →
      ∀ c ∈ chunksAux w fuel xs, c.length = w := by
  intro fuel
  induction fuel with
  | zero => intro xs _ _ c hc; exact absurd hc (by simp [chunksAux])
  | succ fuel ih =>
      intro xs hlen hdvd c hc
      cases xs with
      | nil => exact absurd hc (by simp [chunksAux])
      | cons x rest =>
          rw [chunksAux] at hc
          have hkpos : w ≤ (x :: rest).length := by
            rcases hdvd with ⟨k, hk⟩
            have hk0 : k ≠ 0 := by
              rintro rfl
              simp at hk
            calc w ≤ w * k := Nat.le_mul_of_pos_right w (by omega)
              _ = (x :: rest).length := hk.symm
          rcases List.mem_cons.mp hc with rfl | hc
          · rw [List.length_take]
            omega
          · refine ih ((x :: rest).drop w) ?_ ?_ c hc
            · rw [List.length_drop]
              have : (x :: rest).length ≤ fuel + 1 := hlen
              omega
            · rw [List.length_drop]
              exact Nat.dvd_sub' hdvd (dvd_refl w)

lemma chunkList_mem_length {α : Type} (w : Nat) (hw : w ≠ 0) (xs : List α)
    (hdvd : w ∣ xs.length) : ∀ c ∈ chunkList w xs, c.length = w :=
  chunksAux_mem_length w hw xs.length xs (le_refl _) hdvd

lemma reshapeArray_ok {w : Nat} {xs : List ℚ} {t : List (List ℚ)}
    (h : reshapeArray w xs = Except.ok t) :
    w ∣ xs.length ∧ t = chunkList w xs := by
  rw [reshapeArray] at h
  split at h
  · exact ⟨by assumption, (Except.ok.inj h).symm⟩
  · exact absurd h (by simp)

/-- The channels recorded by reshape events, in trace order. -/
def reshapeEventChannels (evs : List Event) : List String :=
  evs.filterMap (fun e =>
    match e with
    | Event.reshapeChannel c _ => some c
    | _ => none)

/-- C6: whenever a run reaches the inference step, the model is called with
exactly the four reshaped channel tensors in argument order EDA, BVP, TEMP,
ACC (EDA and TEMP in windows of 32 samples, BVP and ACC in windows of 256),
while the reshape step itself processed the channels in the dictionary order
EDA, TEMP, BVP, ACC — a different order. -/
theorem predict_call_order (x_test : List (String × List ℚ)) (y_test : List Nat)
    (predict : List (List (List ℚ)) → List ℚ) (subject_id : String)
    (args : List (String × List (List ℚ)))
    (h : Event.predictCall args ∈
      (plot_physiological_signals x_test y_test predict subject_id).1) :
    args = [("EDA", chunkList edaWindowLen ((x_test.lookup "EDA").getD [])),
            ("BVP", chunkList bvpWindowLen ((x_test.lookup "BVP").getD [])),
            ("TEMP", chunkList tempWindowLen ((x_test.lookup "TEMP").getD [])),
            ("ACC", chunkList accWindowLen ((x_test.lookup "ACC").getD []))] ∧
    args.map Prod.fst = ["EDA", "BVP", "TEMP", "ACC"] ∧
    (∀ c ∈ chunkList edaWindowLen ((x_test.lookup "EDA").getD []),
      c.length = 32) ∧
    (∀ c ∈ chunkList tempWindowLen ((x_test.lookup "TEMP").getD []),
      c.length = 32) ∧
    (∀ c ∈ chunkList bvpWindowLen ((x_test.lookup "BVP").getD []),
      c.length = 256) ∧
    (∀ c ∈ chunkList accWindowLen ((x_test.lookup "ACC").getD []),
      c.length = 256) ∧
    reshapeEventChannels
      (plot_physiological_signals x_test y_test predict subject_id).1 =
      ["EDA", "TEMP", "BVP", "ACC"] ∧
    args.map Prod.fst ≠ ["EDA", "TEMP", "BVP", "ACC"] := by
  have hb : Event.predictCall args ∈ (plotBody x_test y_test predict subject_id).1 := by
    simpa [plot_physiological_signals, plot_physiological_signals_with] using h
  rw [plotBody] at hb
  cases hfind : findMissingKey x_test with
  | some key =>
      rw [hfind] at hb
      exact absurd hb (List.not_mem_nil _)
  | none =>
      rw [hfind] at hb
      cases h1 : reshapeArray edaWindowLen ((x_test.lookup "EDA").getD []) with
      | error e1 => simp [step, reshapeStep, h1] at hb
      | ok t1 =>
      cases h2 : reshapeArray tempWindowLen ((x_test.lookup "TEMP").getD []) with
      | error e2 => simp [step, reshapeStep, h1, h2] at hb
      | ok t2 =>
      cases h3 : reshapeArray bvpWindowLen ((x_test.lookup "BVP").getD []) with
      | error e3 => simp [step, reshapeStep, h1, h2, h3] at hb
      | ok t3 =>
      cases h4 : reshapeArray accWindowLen ((x_test.lookup "ACC").getD []) with
      | error e4 => simp [step, reshapeStep, h1, h2, h3, h4] at hb
      | ok t4 =>
      obtain ⟨hd1, ht1⟩ := reshapeArray_ok h1
      obtain ⟨hd2, ht2⟩ := reshapeArray_ok h2
      obtain ⟨hd3, ht3⟩ := reshapeArray_ok h3
      obtain ⟨hd4, ht4⟩ := reshapeArray_ok h4
      simp only [step, reshapeStep, h1, h2, h3, h4, List.cons_append,
        List.nil_append, List.mem_cons, List.not_mem_nil, or_false] at hb
      have hargs : args = [("EDA", t1), ("BVP", t3), ("TEMP", t2), ("ACC", t4)] := by
        rcases hb with hb | hb | hb | hb | hb | hb | hb | hb <;>
          first
            | (exact (Event.predictCall.inj hb))
            | (exact absurd hb (by simp))
      subst ht1 ht2 ht3 ht4
      refine ⟨hargs, by rw [hargs]; simp, ?_, ?_, ?_, ?_, ?_, by rw [hargs]; simp⟩
      · exact chunkList_mem_length edaWindowLen (by decide) _ hd1
      · exact chunkList_mem_length tempWindowLen (by decide) _ hd2
      · exact chunkList_mem_length bvpWindowLen (by decide) _ hd3
      · exact chunkList_mem_length accWindowLen (by decide) _ hd4
      · simp [plot_physiological_signals, plot_physiological_signals_with,
          plotBody, hfind, step, reshapeStep, h1, h2, h3, h4,
          reshapeEventChannels]

/-- A concrete feature mapping with all four channels present (and empty, so
every reshape succeeds trivially). -/
def witnessXTest : List (String × List ℚ) :=
  [("EDA", []), ("TEMP", []), ("BVP", []), ("ACC", [])]

/-- Witness for C6: a run that reaches inference, with the argument order and
window lengths checked at that concrete run. -/
theorem predict_call_order_witness :
    [(("EDA" : String), ([] : List (List ℚ))), ("BVP", []), ("TEMP", []), ("ACC", [])] =
      [("EDA", chunkList edaWindowLen ((witnessXTest.lookup "EDA").getD [])),
       ("BVP", chunkList bvpWindowLen ((witnessXTest.lookup "BVP").getD [])),
       ("TEMP", chunkList tempWindowLen ((witnessXTest.lookup "TEMP").getD [])),
       ("ACC", chunkList accWindowLen ((witnessXTest.lookup "ACC").getD []))] ∧
    List.map Prod.fst
        [(("EDA" : String), ([] : List (List ℚ))), ("BVP", []), ("TEMP", []), ("ACC", [])] =
      ["EDA", "BVP", "TEMP", "ACC"] ∧
    (∀ c ∈ chunkList edaWindowLen ((witnessXTest.lookup "EDA").getD []),
      c.length = 32) ∧
    (∀ c ∈ chunkList tempWindowLen ((witnessXTest.lookup "TEMP").getD []),
      c.length = 32) ∧
    (∀ c ∈ chunkList bvpWindowLen ((witnessXTest.lookup "BVP").getD []),
      c.length = 256) ∧
    (∀ c ∈ chunkList accWindowLen ((witnessXTest.lookup "ACC").getD []),
      c.length = 256) ∧
    reshapeEventChannels
      (plot_physiological_signals witnessXTest [] (fun _ => []) "S16").1 =
      ["EDA", "TEMP", "BVP", "ACC"] ∧
    List.map Prod.fst
        [(("EDA" : String), ([] : List (List ℚ))), ("BVP", []), ("TEMP", []), ("ACC", [])] ≠
      ["EDA", "TEMP", "BVP", "ACC"] :=
  predict_call_order witnessXTest [] (fun _ => []) "S16"
    [("EDA", []), ("BVP", []), ("TEMP", []), ("ACC", [])] (by decide)

/-- C7: the evaluation driver never invokes the segment builder — running the
driver with any replacement for `create_segments` is observationally
identical to the driver as written — and the rendered chart holds exactly one
line trace, the full EDA channel over its positional time indices. -/
theorem driver_independent_of_segment_builder :
    (∀ (f : List Int → List ℚ → List (Int × Int) → List (Segment ℚ))
        (x_test : List (String × List ℚ)) (y_test : List Nat)
        (predict : List (List (List ℚ)) → List ℚ) (subject_id : String),
      plot_physiological_signals_with f x_test y_test predict subject_id =
        plot_physiological_signals x_test y_test predict subject_id) ∧
    (∀ (x_test : List (String × List ℚ)) (y_test : List Nat)
        (predict : List (List (List ℚ)) → List ℚ) (subject_id : String)
        (fig : Fig),
      (plot_physiological_signals x_test y_test predict subject_id).2 =
        Except.ok fig →
      fig.traces = [(List.range ((x_test.lookup "EDA").getD []).length,
        (x_test.lookup "EDA").getD [])]) := by
  constructor
  · intro f x_test y_test predict subject_id
    rfl
  · intro x_test y_test predict subject_id fig hok
    have hb : (plotBody x_test y_test predict subject_id).2 = Except.ok fig := hok
    rw [plotBody] at hb
    cases hfind : findMissingKey x_test with
    | some key =>
        rw [hfind] at hb
        exact absurd hb (by simp)
    | none =>
        rw [hfind] at hb
        cases h1 : reshapeArray edaWindowLen ((x_test.lookup "EDA").getD []) with
        | error e1 => simp [step, reshapeStep, h1] at hb
        | ok t1 =>
        cases h2 : reshapeArray tempWindowLen ((x_test.lookup "TEMP").getD []) with
        | error e2 => simp [step, reshapeStep, h1, h2] at hb
        | ok t2 =>
        cases h3 : reshapeArray bvpWindowLen ((x_test.lookup "BVP").getD []) with
        | error e3 => simp [step, reshapeStep, h1, h2, h3] at hb
        | ok t3 =>
        cases h4 : reshapeArray accWindowLen ((x_test.lookup "ACC").getD []) with
        | error e4 => simp [step, reshapeStep, h1, h2, h3, h4] at hb
        | ok t4 =>
            simp only [step, reshapeStep, h1, h2, h3, h4] at hb
            rw [← Except.ok.inj hb]

/-- The plotted time indices (positions `0 .. n-1` of the EDA channel) that
fall inside the stress interval attached to window `i`. -/
def intervalPositions (i n : Nat) : List Nat :=
  (List.range n).filter (fun t =>
    decide ((stressInterval i).1 ≤ t) && decide (t < (stressInterval i).2))

/-- The plotted time indices occupied by the samples of window `i` when each
window holds `w` consecutive samples. -/
def windowPositions (w i n : Nat) : List Nat :=
  (List.range n).filter (fun t => decide (w * i ≤ t) && decide (t < w * (i + 1)))

lemma filter_range_window :
    ∀ (n a b : Nat), a ≤ b → b ≤ n →
      (List.range n).filter (fun t => decide (a ≤ t) && decide (t < b)) =
        List.range' a (b - a) := by
  intro n
  induction n with
  | zero =>
      intro a b hab hbn
      have ha : a = 0 := by omega
      have hb : b = 0 := by omega
      subst ha hb
      rfl
  | succ n ih =>
      intro a b hab hbn
      rcases Nat.lt_or_ge n b with hb | hb
      · have hbeq : b = n + 1 := by omega
        subst hbeq
        rw [List.range_succ, List.filter_append]
        rcases Nat.lt_or_ge n a with han | han
        · have ha : a = n + 1 := by omega
          subst ha
          have h1 : (List.range n).filter
              (fun t => decide (n + 1 ≤ t) && decide (t < n + 1)) = [] := by
            rw [List.filter_eq_nil_iff]
            intro t ht
            rw [List.mem_range] at ht
            simp only [Bool.and_eq_true, decide_eq_true_eq, not_and]
            omega
          rw [h1]
          have h2 : [n].filter
              (fun t => decide (n + 1 ≤ t) && decide (t < n + 1)) = [] := by
            rw [List.filter_eq_nil_iff]
            intro t ht
            rw [List.mem_singleton] at ht
            subst ht
            simp only [Bool.and_eq_true, decide_eq_true_eq, not_and]
            omega
          rw [h2]
          have h3 : n + 1 - (n + 1) = 0 := by omega
          rw [h3]
          rfl
        · have h1 : (List.range n).filter
              (fun t => decide (a ≤ t) && decide (t < n + 1)) =
              (List.range n).filter (fun t => decide (a ≤ t) && decide (t < n)) := by
            apply List.filter_congr
            intro t ht
            rw [List.mem_range] at ht
            rw [Bool.eq_iff_iff]
            simp only [Bool.and_eq_true, decide_eq_true_eq]
            constructor <;> omega
          rw [h1, ih a n han (le_refl n)]
          have h2 : [n].filter (fun t => decide (a ≤ t) && decide (t < n + 1)) = [n] := by
            rw [List.filter_cons,
              if_pos (by simp only [Bool.and_eq_true, decide_eq_true_eq]; omega)]
            rfl
          rw [h2]
          have h3 : n + 1 - a = (n - a) + 1 := by omega
          rw [h3, List.range'_1_concat]
          have h4 : a + (n - a) = n := by omega
          rw [h4]
      · rw [List.range_succ, List.filter_append]
        have h2 : [n].filter (fun t => decide (a ≤ t) && decide (t < b)) = [] := by
          rw [List.filter_eq_nil_iff]
          intro t ht
          rw [List.mem_singleton] at ht
          subst ht
          simp only [Bool.and_eq_true, decide_eq_true_eq, not_and]
          omega
        rw [h2, ih a b hab hb, List.append_nil]

/-- C8 counterexample: with one EDA window (labels of length 1, so the
plotted EDA channel has 32 samples), the derived interval for window 0 spans
time indices 0..7, not the positions 0..31 of window 0's samples — the
claimed equality of interval positions and window-sample positions fails. -/
theorem stress_interval_positions_counterexample :
    ¬ (∀ (labels : List Nat) (i : Nat), i < labels.length →
        intervalPositions i (edaWindowLen * labels.length) =
          windowPositions edaWindowLen i (edaWindowLen * labels.length)) := by
  intro h
  exact absurd (h [1] 0 (by decide)) (by decide)

/-- C8 (amended): each derived stress interval is half-open in the plotted
time-index unit, and for window `i` it spans exactly the eight time indices
`i*8 .. i*8+7` — which, an EDA window holding 32 samples, are positions of
samples in EDA window `i / 4`, not of all of window `i`'s samples. -/
theorem stress_interval_positions (n i : Nat) (h : (i + 1) * 8 ≤ n) :
    intervalPositions i n = List.range' (i * 8) 8 ∧
    (∀ t : Nat, t ∈ intervalPositions i n ↔
      (stressInterval i).1 ≤ t ∧ t < (stressInterval i).2) ∧
    (∀ t ∈ intervalPositions i n, t / edaWindowLen = i / 4) := by
  have ha : i * 8 ≤ (i + 1) * 8 := by omega
  have heq : intervalPositions i n = List.range' (i * 8) 8 := by
    rw [intervalPositions]
    simp only [stressInterval]
    rw [filter_range_window n (i * 8) ((i + 1) * 8) ha h]
    have h8 : (i + 1) * 8 - i * 8 = 8 := by omega
    rw [h8]
  refine ⟨heq, ?_, ?_⟩
  · intro t
    rw [heq, List.mem_range'_1]
    simp only [stressInterval]
    constructor <;> intro ht <;> constructor <;> omega
  · intro t ht
    rw [heq, List.mem_range'_1] at ht
    show t / 32 = i / 4
    omega

/-- Witness for the amended C8 at window 0 of a 32-sample EDA channel. -/
theorem stress_interval_positions_witness :
    intervalPositions 0 32 = List.range' (0 * 8) 8 ∧
    (∀ t : Nat, t ∈ intervalPositions 0 32 ↔
      (stressInterval 0).1 ≤ t ∧ t < (stressInterval 0).2) ∧
    (∀ t ∈ intervalPositions 0 32, t / edaWindowLen = 0 / 4) :=
  stress_interval_positions 32 0 (by decide)
